import Mathlib

/-
  Verification of the eidetic overlay filesystem (src/eidetic/src).

  The development shallowly embeds the components the specification talks
  about: the XOR-rotate vault cipher (cipher.rs), the inode catalog and path
  resolver backed by the SQLite tables (db.rs, fs.rs: InodeStore), the inode
  classification and the FUSE callbacks lookup / getattr / read / write /
  unlink (fs.rs), and the background analyzer job handler (worker.rs).

  Names and byte strings are modelled as lists of natural numbers (the UTF-8
  bytes); 64-bit arithmetic is ordinary Nat arithmetic with explicit masks
  and `% 2^64` where the Rust code wraps.  External effects (the backing
  directory, image decoding, HTTP fetches) are supplied through oracle
  functions carried in the state; everything the claims depend on is
  translated from the Rust source.
-/

namespace Eidetic

/-! ## Byte-sequence helpers (counterparts of Rust `str`/`Path` operations) -/

/-- Rust `str::starts_with` on byte sequences: `startsWith pat s` holds when
`pat` is an initial segment of `s`. -/
def startsWith : List Nat → List Nat → Bool
  | [], _ => true
  | _ :: _, [] => false
  | a :: ps, b :: ss => a == b && startsWith ps ss

/-- Rust `str::ends_with` on byte sequences. -/
def endsWith (pat s : List Nat) : Bool :=
  startsWith pat.reverse s.reverse

/-- Rust `str::contains` for a (nonempty or empty) byte pattern: scans every
suffix for a prefix match. -/
def containsSeq (pat : List Nat) : List Nat → Bool
  | [] => startsWith pat []
  | b :: rest => startsWith pat (b :: rest) || containsSeq pat rest

/-- The scanning loop of Rust `str::replace(pat, rep)`, with an explicit
fuel so that the recursion is structural (every step consumes at least one
byte of `s`, so any fuel above `s.length` computes the replacement). -/
def replaceSeqFuel : Nat → List Nat → List Nat → List Nat → List Nat
  | 0, s, _, _ => s
  | _ + 1, s, [], _ => s
  | _ + 1, [], _, _ => []
  | fuel + 1, a :: rest, p :: ps, rep =>
    if startsWith (p :: ps) (a :: rest) then
      rep ++ replaceSeqFuel fuel ((a :: rest).drop (p :: ps).length) (p :: ps) rep
    else
      a :: replaceSeqFuel fuel rest (p :: ps) rep

/-- Rust `str::replace(pat, rep)`: replace every non-overlapping occurrence
of `pat`, scanning left to right.  (With an empty pattern the function
returns the input unchanged; the filesystem only calls it with ".jpg".) -/
def replaceSeq (s pat rep : List Nat) : List Nat :=
  replaceSeqFuel (s.length + 1) s pat rep

/-- ASCII lowercasing of one byte, the effect of Rust `to_lowercase` on the
ASCII names and extensions the filesystem handles. -/
def toLowerByte (b : Nat) : Nat :=
  if 65 ≤ b ∧ b ≤ 90 then b + 32 else b

/-- ASCII lowercasing of a byte sequence. -/
def toLowerBytes (s : List Nat) : List Nat :=
  s.map toLowerByte

/-- Decimal rendering of a natural number as ASCII digit bytes, the effect of
Rust `format!` on an integer. -/
def natDecimal (n : Nat) : List Nat :=
  (Nat.toDigits 10 n).map Char.toNat

/-- `Path::file_name`: the last `/`-separated component of a path. -/
def lastComponent (p : List Nat) : List Nat :=
  ((p.splitOn 47).getLast? ).getD []

/-- `Path::extension`: the part of the last component after its last dot,
provided the component contains a dot that is not its leading byte. -/
def extOf (p : List Nat) : Option (List Nat) :=
  let f := lastComponent p
  let e := (f.reverse.takeWhile (fun b => b ≠ 46)).reverse
  if e.length + 2 ≤ f.length ∧ f.contains 46 then some e else none

/-- `Vec<String>::join("/")` on path components. -/
def joinPath (parts : List (List Nat)) : List Nat :=
  (parts.intersperse [47]).flatten

/-! ## Inode-space constants (fs.rs lines 42-52) -/

/-- `u64::MAX`. -/
def U64MAX : Nat := 2 ^ 64 - 1

/-- `MAGIC_ROOT: u64 = u64::MAX`. -/
def MAGIC_ROOT : Nat := U64MAX

/-- `MAGIC_TAGS: u64 = u64::MAX - 1`. -/
def MAGIC_TAGS : Nat := U64MAX - 1

/-- `MAGIC_RECENT: u64 = u64::MAX - 2`. -/
def MAGIC_RECENT : Nat := U64MAX - 2

/-- `MAGIC_SEARCH: u64 = u64::MAX - 3`. -/
def MAGIC_SEARCH : Nat := U64MAX - 3

/-- `MAGIC_SEARCH_RESULTS: u64 = u64::MAX - 4`. -/
def MAGIC_SEARCH_RESULTS : Nat := U64MAX - 4

/-- `MAGIC_API: u64 = u64::MAX - 5`. -/
def MAGIC_API : Nat := U64MAX - 5

/-- `MAGIC_WORMHOLE: u64 = u64::MAX - 6`. -/
def MAGIC_WORMHOLE : Nat := U64MAX - 6

/-- `MAGIC_STATS: u64 = u64::MAX - 7`. -/
def MAGIC_STATS : Nat := U64MAX - 7

/-- `CONTEXT_BIT: u64 = 1 << 63`. -/
def CONTEXT_BIT : Nat := 2 ^ 63

/-- `CONVERT_BIT: u64 = 1 << 62`. -/
def CONVERT_BIT : Nat := 2 ^ 62

/-- `API_BIT: u64 = 1 << 61`. -/
def API_BIT : Nat := 2 ^ 61

/-- The 64-bit complement `!CONTEXT_BIT` used by `inode & !CONTEXT_BIT`. -/
def contextMask : Nat := U64MAX ^^^ CONTEXT_BIT

/-- The 64-bit complement `!CONVERT_BIT` used by `inode & !CONVERT_BIT`. -/
def convertMask : Nat := U64MAX ^^^ CONVERT_BIT

/-- `libc::ENOENT`. -/
def ENOENT : Nat := 2

/-- `libc::EIO`. -/
def EIO : Nat := 5

/-- `libc::EACCES`. -/
def EACCES : Nat := 13

/-! ## Vault cipher (cipher.rs) -/

/-- The per-position key byte `KEY.wrapping_add((i % 255) as u8)` with
`KEY = 0xAA`. -/
def cipherKey (i : Nat) : Nat :=
  (170 + i % 255) % 256

/-- One byte of `encrypt`: `b.wrapping_add(k) ^ k` in `u8` arithmetic. -/
def encByte (i b : Nat) : Nat :=
  ((b + cipherKey i) % 256) ^^^ cipherKey i

/-- One byte of `decrypt`: `(b ^ k).wrapping_sub(k)` in `u8` arithmetic. -/
def decByte (i b : Nat) : Nat :=
  ((b ^^^ cipherKey i) + 256 - cipherKey i) % 256

/-- `encrypt` from position `i` on: the `iter().enumerate().map(..)` loop of
cipher.rs with the enumeration started at `i`. -/
def encryptFrom : Nat → List Nat → List Nat
  | _, [] => []
  | i, b :: rest => encByte i b :: encryptFrom (i + 1) rest

/-- `decrypt` from position `i` on. -/
def decryptFrom : Nat → List Nat → List Nat
  | _, [] => []
  | i, b :: rest => decByte i b :: decryptFrom (i + 1) rest

/-- `cipher::encrypt`. -/
def encrypt (data : List Nat) : List Nat :=
  encryptFrom 0 data

/-- `cipher::decrypt`. -/
def decrypt (data : List Nat) : List Nat :=
  decryptFrom 0 data

/-! ## The inode catalog (db.rs): the four SQLite tables as in-memory lists -/

/-- One row of the `inodes` table: `(id PK, parent_id, name)`. -/
structure InodeRow where
  id : Nat
  parent : Nat
  name : List Nat
deriving DecidableEq

/-- The `inodes` table. -/
abbrev Catalog := List InodeRow

/-- `Database::get_inode`: `SELECT id WHERE parent_id = ? AND name = ?`. -/
def dbGetInode (c : Catalog) (parent : Nat) (name : List Nat) : Option Nat :=
  (c.find? (fun r => r.parent == parent && r.name == name)).map (fun r => r.id)

/-- `Database::get_inode_entry`: `SELECT parent_id, name WHERE id = ?`. -/
def dbGetEntry (c : Catalog) (inode : Nat) : Option (Nat × List Nat) :=
  (c.find? (fun r => r.id == inode)).map (fun r => (r.parent, r.name))

/-- The whole persistent store: the four tables plus the next free rowid.
`tags` is `file_tags(inode_id, tag)`, `history` is
`file_history(inode_id, backup_path)` (timestamps elided), `trash` is
`trash(original_path, backup_path)`. -/
structure Db where
  inodes : Catalog
  nextId : Nat
  tags : List (Nat × List Nat)
  history : List (Nat × List Nat)
  trash : List (List Nat × List Nat)
deriving DecidableEq

/-- `Database::add_tag`: `INSERT OR IGNORE INTO file_tags`. -/
def dbAddTag (db : Db) (inode : Nat) (tag : List Nat) : Db :=
  if db.tags.contains (inode, tag) then db
  else { db with tags := db.tags ++ [(inode, tag)] }

/-- `Database::delete_inode`: `DELETE FROM inodes WHERE id = ?`. -/
def dbDeleteInode (db : Db) (inode : Nat) : Db :=
  { db with inodes := db.inodes.filter (fun r => r.id != inode) }

/-- `Database::add_trash` (timestamp elided). -/
def dbAddTrash (db : Db) (original backup : List Nat) : Db :=
  { db with trash := db.trash ++ [(original, backup)] }

/-- `Database::add_history` (timestamp elided). -/
def dbAddHistory (db : Db) (inode : Nat) (backup : List Nat) : Db :=
  { db with history := db.history ++ [(inode, backup)] }

/-- `InodeStore::alloc_inode`: reuse the `(parent, name)` row if present,
otherwise `create_inode` assigns the next rowid. -/
def alloc_inode (db : Db) (parent : Nat) (name : List Nat) : Nat × Db :=
  match dbGetInode db.inodes parent name with
  | some i => (i, db)
  | none =>
      (db.nextId,
       { db with
           inodes := db.inodes ++ [⟨db.nextId, parent, name⟩],
           nextId := db.nextId + 1 })

/-! ## The path resolver (fs.rs: `InodeStore::get_path`) -/

/-- The `while current != 1 && loop_check < 100` loop of `get_path`:
`fuel` is `100 - loop_check`.  A missing catalog entry aborts with `none`;
reaching the bound exits the loop with the names collected so far. -/
def getPathWalk (c : Catalog) : Nat → Nat → List (List Nat) →
    Option (List (List Nat))
  | fuel, current, parts =>
    if current = 1 then some parts
    else
      match fuel with
      | 0 => some parts
      | f + 1 =>
        match dbGetEntry c current with
        | some pn => getPathWalk c f pn.1 (parts ++ [pn.2])
        | none => none

/-- `InodeStore::get_path`: root is the empty path, otherwise walk parent
links (bounded at 100 hops), reverse, and join with `/`. -/
def get_path (c : Catalog) (inode : Nat) : Option (List Nat) :=
  if inode = 1 then some []
  else (getPathWalk c 100 inode []).map (fun parts => joinPath parts.reverse)

/-- The parent-link chain of the catalog: `chain c i k` is the inode reached
from `i` after `k` hops, `none` as soon as an entry is missing. -/
def chain (c : Catalog) : Nat → Nat → Option Nat
  | i, 0 => some i
  | i, k + 1 =>
    match dbGetEntry c i with
    | some pn => chain c pn.1 k
    | none => none

/-- A chain position is "walkable" when it exists, is not the root, and has a
catalog entry to follow. -/
def okNode (c : Catalog) : Option Nat → Bool
  | some m => decide (m ≠ 1) && (dbGetEntry c m).isSome
  | none => false

/-- `chainOkB c i k`: the `k`-th hop of the walk from `i` is walkable. -/
def chainOkB (c : Catalog) (i k : Nat) : Bool :=
  okNode c (chain c i k)

/-! ## Literal names used by the dispatcher, as UTF-8 byte sequences -/

/-- ".magic" -/
def magicName : List Nat := [46, 109, 97, 103, 105, 99]

/-- "tags" -/
def tagsName : List Nat := [116, 97, 103, 115]

/-- "recent" -/
def recentName : List Nat := [114, 101, 99, 101, 110, 116]

/-- "search" -/
def searchName : List Nat := [115, 101, 97, 114, 99, 104]

/-- "api" -/
def apiName : List Nat := [97, 112, 105]

/-- "wormhole" -/
def wormholeName : List Nat := [119, 111, 114, 109, 104, 111, 108, 101]

/-- "stats.md" -/
def statsName : List Nat := [115, 116, 97, 116, 115, 46, 109, 100]

/-- "bitcoin.json" -/
def bitcoinName : List Nat := [98, 105, 116, 99, 111, 105, 110, 46, 106, 115, 111, 110]

/-- ".context" -/
def contextName : List Nat := [46, 99, 111, 110, 116, 101, 120, 116]

/-- ".jpg" -/
def jpgExt : List Nat := [46, 106, 112, 103]

/-- ".png" -/
def pngExt : List Nat := [46, 112, 110, 103]

/-- "url" -/
def urlExt : List Nat := [117, 114, 108]

/-- "/vault/" -/
def vaultSeg : List Nat := [47, 118, 97, 117, 108, 116, 47]

/-- ".eidetic/trash" -/
def trashDirName : List Nat :=
  [46, 101, 105, 100, 101, 116, 105, 99, 47, 116, 114, 97, 115, 104]

/-- ".eidetic/history" -/
def historyDirName : List Nat :=
  [46, 101, 105, 100, 101, 116, 105, 99, 47, 104, 105, 115, 116, 111, 114, 121]

/-! ## The per-tag inode encoding (fs.rs lookup lines 446-473, readdir 948-956) -/

/-- The wrapping `u64` byte sum `h` of a tag name:
`for b in name.bytes() { h = h.wrapping_add(b as u64); }`. -/
def byteSumU64 (name : List Nat) : Nat :=
  name.foldl (fun h b => (h + b) % 2 ^ 64) 0

/-- The per-tag virtual directory inode:
`MAGIC_TAGS - 1000 - (h % 1000)`. -/
def tagInode (name : List Nat) : Nat :=
  MAGIC_TAGS - 1000 - byteSumU64 name % 1000

/-- The readdir range test selecting the per-tag directory listing branch:
`inode < MAGIC_TAGS && inode > MAGIC_TAGS - 2000` (fs.rs line 962). -/
def tagDirRange (inode : Nat) : Bool :=
  decide (inode < MAGIC_TAGS) && decide (inode > MAGIC_TAGS - 2000)

/-! ## File attributes (the fields of `fuser::FileAttr` the claims speak of) -/

/-- `fuser::FileType`, restricted to the two kinds the dispatcher emits. -/
inductive FileKind where
  | directory : FileKind
  | regularFile : FileKind
deriving DecidableEq

/-- The attribute fields the filesystem computes (timestamps, uid/gid, rdev,
flags and blksize are constants or passthrough and are elided). -/
structure FileAttr where
  ino : Nat
  size : Nat
  blocks : Nat
  kind : FileKind
  perm : Nat
  nlink : Nat
deriving DecidableEq

/-- `std::fs::Metadata` as consumed by `fs_metadata_to_file_attr`. -/
structure Metadata where
  len : Nat
  isDir : Bool
  mode : Nat
deriving DecidableEq

/-- `EideticFS::fs_metadata_to_file_attr` (fs.rs lines 180-311), with its
branch order: context view, convert view, search, api/wormhole directories,
stats, api leaf, then the real-file translation. -/
def fs_metadata_to_file_attr (md : Metadata) (inode : Nat) : FileAttr :=
  if inode &&& CONTEXT_BIT ≠ 0 then
    { ino := inode, size := 1024, blocks := 1, kind := .regularFile,
      perm := 0o444, nlink := 1 }
  else if inode &&& CONVERT_BIT ≠ 0 then
    { ino := inode, size := 1024 * 1024, blocks := 1, kind := .regularFile,
      perm := 0o444, nlink := 1 }
  else if inode = MAGIC_SEARCH then
    { ino := inode, size := 0, blocks := 0, kind := .regularFile,
      perm := 0o666, nlink := 1 }
  else if inode = MAGIC_API ∨ inode = MAGIC_WORMHOLE then
    { ino := inode, size := 0, blocks := 0, kind := .directory,
      perm := 0o555, nlink := 2 }
  else if inode = MAGIC_STATS then
    { ino := inode, size := 1024, blocks := 1, kind := .regularFile,
      perm := 0o444, nlink := 1 }
  else if inode &&& API_BIT ≠ 0 then
    { ino := inode, size := 1024, blocks := 1, kind := .regularFile,
      perm := 0o444, nlink := 1 }
  else
    let size := if inode ≥ MAGIC_SEARCH_RESULTS then 0 else md.len
    let kind := if inode ≥ MAGIC_SEARCH_RESULTS ∨ md.isDir then
        FileKind.directory else FileKind.regularFile
    { ino := inode, size := size, blocks := size / 512 + 1, kind := kind,
      perm := if inode ≥ MAGIC_SEARCH_RESULTS then 0o555 else md.mode % 2 ^ 16,
      nlink := 1 }

/-! ## The mounted state: catalog handle plus oracles for the outside world -/

/-- The backing directory and the external effects a callback can trigger.
`stat` and `fileBytes` are keyed by source-relative paths.  `contextGen`,
`convertJpeg`, `urlView` and `statsRender` are oracles standing for the
recursive directory walk, the PNG→JPEG transcode, the outbound HTTP fetch of
a `.url` file, and the stats markdown rendering: their outputs are opaque
byte sequences, which is all the claims need of them. -/
structure Disk where
  stat : List Nat → Option Metadata
  fileBytes : List Nat → Option (List Nat)
  contextGen : List Nat → List Nat
  convertJpeg : List Nat → Option (List Nat)
  urlView : List Nat → List Nat
  statsRender : List (Nat × List Nat) → List Nat

/-- `EideticFS`: the source path, the store behind the mutex, the backing
disk, and the current unix timestamp used for backup names. -/
structure FsState where
  sourcePath : List Nat
  db : Db
  disk : Disk
  now : Nat

/-- `source_path.join(relative)`. -/
def fullPath (st : FsState) (rel : List Nat) : List Nat :=
  st.sourcePath ++ [47] ++ rel

/-- `format!("{}/{}", parent_path, name)`, with the empty parent special
case of lookup/mkdir/create/readdir. -/
def childPath (parentPath name : List Nat) : List Nat :=
  if parentPath = [] then name else parentPath ++ [47] ++ name

/-- Slicing of a generated buffer by offset and size (the
`if offset >= len { [] } else { bytes[offset..min(offset+size, len)] }`
pattern of the read handler). -/
def sliceBuf (bytes : List Nat) (off size : Nat) : List Nat :=
  if off ≥ bytes.length then []
  else (bytes.drop off).take (min (off + size) bytes.length - off)

/-! ## Reply types: each callback ends in exactly one of these -/

/-- Reply of `lookup`: `reply.entry(ttl, attr, 0)` or `reply.error(errno)`. -/
inductive EntryReply where
  | entry : FileAttr → EntryReply
  | error : Nat → EntryReply
deriving DecidableEq

/-- Reply of `getattr`: `reply.attr(ttl, attr)` or `reply.error(errno)`. -/
inductive AttrReply where
  | attr : FileAttr → AttrReply
  | error : Nat → AttrReply
deriving DecidableEq

/-- Reply of `read`: `reply.data(bytes)` or `reply.error(errno)`. -/
inductive ReadReply where
  | data : List Nat → ReadReply
  | error : Nat → ReadReply
deriving DecidableEq

/-- Reply of `write`: `reply.written(n)` or `reply.error(errno)`. -/
inductive WriteReply where
  | written : Nat → WriteReply
  | error : Nat → WriteReply
deriving DecidableEq

/-- Outcome of `unlink`: `reply.ok()`, `reply.error(errno)`, or the thread
panicking on an `unwrap` before any reply is sent. -/
inductive EmptyReply where
  | ok : EmptyReply
  | error : Nat → EmptyReply
  | panicked : EmptyReply
deriving DecidableEq

/-! ## lookup (fs.rs lines 333-553) -/

/-- `Filesystem::lookup`.  The branches appear in source order: the
hard-coded `.magic` tree names, `api/bitcoin.json`, the unconditional
per-tag branch under `MAGIC_TAGS`, parent path resolution, `.context`,
the `.jpg`→`.png` auto-convert probe, and finally the real passthrough
(which stats the backing path and allocates a catalog inode). -/
def fsLookup (st : FsState) (parent : Nat) (name : List Nat) :
    EntryReply × FsState :=
  if parent = 1 ∧ name = magicName then
    (.entry { ino := MAGIC_ROOT, size := 0, blocks := 0, kind := .directory,
              perm := 0o555, nlink := 2 }, st)
  else if parent = MAGIC_ROOT ∧ name = tagsName then
    (.entry { ino := MAGIC_TAGS, size := 0, blocks := 0, kind := .directory,
              perm := 0o555, nlink := 2 }, st)
  else if parent = MAGIC_ROOT ∧ name = recentName then
    (.entry { ino := MAGIC_RECENT, size := 0, blocks := 0, kind := .directory,
              perm := 0o555, nlink := 2 }, st)
  else if parent = MAGIC_ROOT ∧ name = searchName then
    (.entry { ino := MAGIC_SEARCH, size := 0, blocks := 0, kind := .regularFile,
              perm := 0o666, nlink := 1 }, st)
  else if parent = MAGIC_ROOT ∧ name = apiName then
    (.entry { ino := MAGIC_API, size := 0, blocks := 0, kind := .directory,
              perm := 0o555, nlink := 2 }, st)
  else if parent = MAGIC_ROOT ∧ name = wormholeName then
    (.entry { ino := MAGIC_WORMHOLE, size := 0, blocks := 0, kind := .directory,
              perm := 0o555, nlink := 2 }, st)
  else if parent = MAGIC_ROOT ∧ name = statsName then
    (.entry { ino := MAGIC_STATS, size := 1024, blocks := 1, kind := .regularFile,
              perm := 0o444, nlink := 1 }, st)
  else if parent = MAGIC_API ∧ name = bitcoinName then
    (.entry { ino := MAGIC_API ||| API_BIT, size := 1024, blocks := 1,
              kind := .regularFile, perm := 0o444, nlink := 1 }, st)
  else if parent = MAGIC_TAGS then
    (.entry { ino := tagInode name, size := 0, blocks := 0, kind := .directory,
              perm := 0o555, nlink := 2 }, st)
  else
    match get_path st.db.inodes parent with
    | none => (.error ENOENT, st)
    | some parentPath =>
      if name = contextName then
        (.entry { ino := parent ||| CONTEXT_BIT, size := 1024, blocks := 1,
                  kind := .regularFile, perm := 0o444, nlink := 1 }, st)
      else
        match
          (if endsWith jpgExt name then
             dbGetInode st.db.inodes parent (replaceSeq name jpgExt pngExt)
           else none)
        with
        | some pngInode =>
            (.entry { ino := pngInode ||| CONVERT_BIT, size := 1024 * 1024,
                      blocks := 1, kind := .regularFile, perm := 0o444,
                      nlink := 1 }, st)
        | none =>
          match st.disk.stat (childPath parentPath name) with
          | some md =>
              let a := alloc_inode st.db parent name
              (.entry (fs_metadata_to_file_attr md a.1), { st with db := a.2 })
          | none => (.error ENOENT, st)

/-! ## getattr (fs.rs lines 555-694) -/

/-- `Filesystem::getattr`.  The branches appear in source order: context
view, convert view, search, api leaf bit, api/wormhole directories, stats,
the `>= MAGIC_SEARCH_RESULTS - 2000` virtual-file fallback, and finally real
resolution through the catalog and a backing `stat`. -/
def fsGetattr (st : FsState) (inode : Nat) : AttrReply :=
  if inode &&& CONTEXT_BIT ≠ 0 then
    .attr { ino := inode, size := 1024, blocks := 1, kind := .regularFile,
            perm := 0o444, nlink := 1 }
  else if inode &&& CONVERT_BIT ≠ 0 then
    .attr { ino := inode, size := 1024 * 1024, blocks := 1, kind := .regularFile,
            perm := 0o444, nlink := 1 }
  else if inode = MAGIC_SEARCH then
    .attr { ino := inode, size := 0, blocks := 0, kind := .regularFile,
            perm := 0o666, nlink := 1 }
  else if inode &&& API_BIT ≠ 0 then
    .attr { ino := inode, size := 1024, blocks := 1, kind := .regularFile,
            perm := 0o444, nlink := 1 }
  else if inode = MAGIC_API ∨ inode = MAGIC_WORMHOLE then
    .attr { ino := inode, size := 0, blocks := 0, kind := .directory,
            perm := 0o555, nlink := 2 }
  else if inode = MAGIC_STATS then
    .attr { ino := inode, size := 1024, blocks := 1, kind := .regularFile,
            perm := 0o444, nlink := 1 }
  else if inode ≥ MAGIC_SEARCH_RESULTS - 2000 then
    .attr { ino := inode, size := 100, blocks := 1, kind := .regularFile,
            perm := 0o444, nlink := 1 }
  else
    match get_path st.db.inodes inode with
    | some rel =>
      match st.disk.stat rel with
      | some md => .attr (fs_metadata_to_file_attr md inode)
      | none => .error ENOENT
    | none => .error ENOENT

/-! ## read (fs.rs lines 696-871) -/

/-- `Filesystem::read`.  Route order as in source: a catalog-resolvable
inode is read from the backing file (with the vault decrypt and `.url`
dereference hooks, in that order); otherwise the context-view bit, the
convert-view bit and the stats inode are tried; everything else is ENOENT.
The backing read returns the bytes from `offset`, at most `size` of them. -/
def fsRead (st : FsState) (inode off size : Nat) : ReadReply :=
  match get_path st.db.inodes inode with
  | some rel =>
    match st.disk.fileBytes rel with
    | none => .error ENOENT
    | some contents =>
      let readBytes := (contents.drop off).take size
      if containsSeq vaultSeg (fullPath st rel) then
        .data (decrypt readBytes)
      else if extOf (fullPath st rel) = some urlExt then
        .data (st.disk.urlView readBytes)
      else
        .data readBytes
  | none =>
    if inode &&& CONTEXT_BIT ≠ 0 then
      let dirInode := inode &&& contextMask
      match get_path st.db.inodes dirInode with
      | some dirRel => .data (sliceBuf (st.disk.contextGen dirRel) off size)
      | none => .error ENOENT
    else if inode &&& CONVERT_BIT ≠ 0 then
      let rawInode := inode &&& convertMask
      match get_path st.db.inodes rawInode with
      | some rel =>
        match st.disk.convertJpeg rel with
        | some bytes => .data (sliceBuf bytes off size)
        | none => .error EIO
      | none => .error ENOENT
    else if inode = MAGIC_STATS then
      .data (sliceBuf (st.disk.statsRender st.db.tags) off size)
    else
      .error ENOENT

/-! ## write (fs.rs lines 1266-1340) -/

/-- Replace a single file's contents on the disk oracle (and make it stat as
a regular file of the new length). -/
def diskWriteFile (d : Disk) (path bytes : List Nat) : Disk :=
  { d with
      fileBytes := fun p => if p = path then some bytes else d.fileBytes p,
      stat := fun p =>
        if p = path then some ⟨bytes.length, false, 0o644⟩ else d.stat p }

/-- The bytes of a file after `seek(Start(off))` followed by `write_all`:
bytes before `off` survive, a seek past the end zero-fills the gap, the
written block replaces what it overlaps, the remainder survives. -/
def spliceAt (contents : List Nat) (off : Nat) (block : List Nat) : List Nat :=
  contents.take off ++ List.replicate (off - contents.length) 0 ++
    block ++ contents.drop (off + block.length)

/-- The snapshot destination
`.eidetic/history/<inode>_<unix_ts>_<basename>` of write. -/
def writeBackupName (st : FsState) (inode : Nat) (rel : List Nat) : List Nat :=
  historyDirName ++ [47] ++ natDecimal inode ++ [95] ++ natDecimal st.now ++
    [95] ++ lastComponent (fullPath st rel)

/-- `Filesystem::write`.  `MAGIC_SEARCH` acknowledges without writing; a
real inode is snapshotted into `.eidetic/history` (best-effort: only when
the backing file is readable, recording a `file_history` row), then the
data — encrypted when the resolved path contains `/vault/` — is written at
the offset.  The reply reports the incoming length. -/
def fsWrite (st : FsState) (inode off : Nat) (data : List Nat) :
    FsState × WriteReply :=
  if inode = MAGIC_SEARCH then
    (st, .written data.length)
  else
    match get_path st.db.inodes inode with
    | none => (st, .error ENOENT)
    | some rel =>
      let st1 :=
        match st.disk.fileBytes rel with
        | some contents =>
            { st with
                disk := diskWriteFile st.disk (writeBackupName st inode rel) contents,
                db := dbAddHistory st.db inode (writeBackupName st inode rel) }
        | none => st
      match st1.disk.fileBytes rel with
      | none => (st1, .error ENOENT)
      | some contents =>
        let finalData :=
          if containsSeq vaultSeg (fullPath st rel) then encrypt data
          else data
        ({ st1 with disk := diskWriteFile st1.disk rel (spliceAt contents off finalData) },
         .written data.length)

/-! ## unlink (fs.rs lines 1110-1151) -/

/-- Non-disk failure modes of the two backing calls unlink makes
(permissions, cross-device links, ...), and the errno `last_os_error`
reports for the direct-delete fallback. -/
structure UnlinkEnv where
  renameOk : Bool
  unlinkOk : Bool
  osErrno : Nat

/-- Move a file across the disk oracle, as `fs::rename` does on success. -/
def diskRename (d : Disk) (from0 to0 : List Nat) : Disk :=
  { d with
      fileBytes := fun p =>
        if p = to0 then d.fileBytes from0
        else if p = from0 then none
        else d.fileBytes p,
      stat := fun p =>
        if p = to0 then d.stat from0
        else if p = from0 then none
        else d.stat p }

/-- Remove a file from the disk oracle, as `libc::unlink` does on success. -/
def diskRemove (d : Disk) (path : List Nat) : Disk :=
  { d with
      fileBytes := fun p => if p = path then none else d.fileBytes p,
      stat := fun p => if p = path then none else d.stat p }

/-- The trash destination `.eidetic/trash/<unix_ts>_<name>` of unlink. -/
def unlinkBackupName (st : FsState) (name : List Nat) : List Nat :=
  trashDirName ++ [47] ++ natDecimal st.now ++ [95] ++ name

/-- The fallback tail of `unlink`: re-resolve the child path — panicking on
the `.unwrap()` when the walk fails — and `libc::unlink` the backing file
directly, deleting the inode row on success. -/
def fsUnlinkFallback (st : FsState) (env : UnlinkEnv) (child : Nat) :
    FsState × EmptyReply :=
  match get_path st.db.inodes child with
  | none => (st, .panicked)
  | some rel =>
    if (st.disk.fileBytes rel).isSome then
      if env.unlinkOk then
        ({ st with disk := diskRemove st.disk rel, db := dbDeleteInode st.db child },
         .ok)
      else (st, .error env.osErrno)
    else (st, .error ENOENT)

/-- `Filesystem::unlink`.  Resolve the child, try to move its backing file
into `.eidetic/trash/<ts>_<name>` (recording a trash row and deleting the
inode row on success), and otherwise fall back to a direct delete.
`fs::rename` succeeds only when the source exists and `env.renameOk` allows
it. -/
def fsUnlink (st : FsState) (env : UnlinkEnv) (parent : Nat) (name : List Nat) :
    FsState × EmptyReply :=
  match dbGetInode st.db.inodes parent name with
  | none => (st, .error ENOENT)
  | some child =>
    match get_path st.db.inodes child with
    | some rel =>
      if (st.disk.fileBytes rel).isSome && env.renameOk then
        ({ st with
             disk := diskRename st.disk rel (unlinkBackupName st name),
             db := dbDeleteInode (dbAddTrash st.db rel (unlinkBackupName st name))
               child },
         .ok)
      else fsUnlinkFallback st env child
    | none => fsUnlinkFallback st env child

/-! ## The background analyzer (worker.rs) -/

/-- "function" -/
def functionPat : List Nat := [102, 117, 110, 99, 116, 105, 111, 110]

/-- "def " -/
def defPat : List Nat := [100, 101, 102, 32]

/-- "impl " -/
def implPat : List Nat := [105, 109, 112, 108, 32]

/-- "class " -/
def classPat : List Nat := [99, 108, 97, 115, 115, 32]

/-- "total:" -/
def totalPat : List Nat := [116, 111, 116, 97, 108, 58]

/-- "amount:" -/
def amountPat : List Nat := [97, 109, 111, 117, 110, 116, 58]

/-- "invoice" -/
def invoicePat : List Nat := [105, 110, 118, 111, 105, 99, 101]

/-- "select * from" -/
def selectPat : List Nat := [115, 101, 108, 101, 99, 116, 32, 42, 32, 102, 114, 111, 109]

/-- "insert into" -/
def insertPat : List Nat := [105, 110, 115, 101, 114, 116, 32, 105, 110, 116, 111]

/-- "dear " -/
def dearPat : List Nat := [100, 101, 97, 114, 32]

/-- "sincerely" -/
def sincerelyPat : List Nat := [115, 105, 110, 99, 101, 114, 101, 108, 121]

/-- "code" -/
def codeTag : List Nat := [99, 111, 100, 101]

/-- "finance" -/
def financeTag : List Nat := [102, 105, 110, 97, 110, 99, 101]

/-- "sql" -/
def sqlTag : List Nat := [115, 113, 108]

/-- "letter" -/
def letterTag : List Nat := [108, 101, 116, 116, 101, 114]

/-- "image" -/
def imageTag : List Nat := [105, 109, 97, 103, 101]

/-- The image extension list `["jpg", "jpeg", "png", "webp", "gif"]`. -/
def imageExts : List (List Nat) :=
  [[106, 112, 103], [106, 112, 101, 103], [112, 110, 103],
   [119, 101, 98, 112], [103, 105, 102]]

/-- `worker::guess_tags`: substring heuristics over the lowercased text,
pushing `code`, `finance`, `sql`, `letter` in source order. -/
def guess_tags (content : List Nat) : List (List Nat) :=
  let lower := toLowerBytes content
  (if containsSeq functionPat lower || containsSeq defPat lower ||
      containsSeq implPat lower || containsSeq classPat lower then
     [codeTag] else []) ++
  (if containsSeq totalPat lower || containsSeq amountPat lower ||
      containsSeq invoicePat lower then [financeTag] else []) ++
  (if containsSeq selectPat lower || containsSeq insertPat lower then
     [sqlTag] else []) ++
  (if containsSeq dearPat lower && containsSeq sincerelyPat lower then
     [letterTag] else [])

/-- `worker::is_binary`: a NUL byte within the first 1024 bytes. -/
def is_binary (data : List Nat) : Bool :=
  (data.take 1024).any (fun b => b == 0)

/-- Outcomes of the analyzer's interactions with the file being analyzed:
the bytes of the backing file (`none` when `File::open`/`read` fails),
whether the `image::image_dimensions` probe succeeds, whether the full
`read_to_string` parses as UTF-8, and whether the auto-organizer's
`fs::rename` into `Finance/` succeeds. -/
structure AnalyzeDisk where
  fileBytes : Option (List Nat)
  dimsOk : Bool
  utf8Ok : Bool
  renameOk : Bool

/-- `Worker::process_analyze` (worker.rs lines 110-163), as a transition of
the database state.  Image extensions take the `image` tag on a successful
dimension probe.  Text files run `guess_tags` (upserting each tag); when
the lowercased file name contains "invoice" the auto-organizer renames the
file into `Finance/` on disk and, if the rename succeeds, deletes the
inode's catalog row.  TODO extraction and the summarizer touch no table. -/
def process_analyze (db : Db) (d : AnalyzeDisk) (inode : Nat) (path : List Nat) :
    Db :=
  let ext := toLowerBytes ((extOf path).getD [])
  if imageExts.contains ext then
    if d.dimsOk then dbAddTag db inode imageTag else db
  else
    match d.fileBytes with
    | none => db
    | some content =>
      let buffer := content.take 1024
      if buffer.length > 0 && !is_binary buffer then
        if d.utf8Ok then
          let db1 := (guess_tags content).foldl
            (fun acc tag => dbAddTag acc inode tag) db
          if containsSeq invoicePat (toLowerBytes (lastComponent path)) then
            if d.renameOk then dbDeleteInode db1 inode else db1
          else db1
        else db
      else db

/-! ## Concrete states used to evaluate the callbacks at specific inputs -/

/-- A backing directory with no files at all. -/
def emptyDisk : Disk where
  stat := fun _ => none
  fileBytes := fun _ => none
  contextGen := fun _ => []
  convertJpeg := fun _ => none
  urlView := fun _ => []
  statsRender := fun _ => []

/-- "src" as a source path. -/
def srcPath : List Nat := [115, 114, 99]

/-- A freshly initialized store: only the self-parented root row. -/
def freshDb : Db := ⟨[⟨1, 1, []⟩], 2, [], [], []⟩

/-- A fresh mount over an empty backing directory. -/
def stdSt : FsState := ⟨srcPath, freshDb, emptyDisk, 0⟩

/-- A catalog whose inode 2 is its own parent under the name "x": a cycle
that never reaches the root. -/
def cycCat : Catalog := [⟨1, 1, []⟩, ⟨2, 2, [120]⟩]

/-- A corrupted store: inode 2 is named "x" under parent 5, but no row with
id 5 exists, so the path walk for inode 2 fails. -/
def brokenSt : FsState :=
  ⟨srcPath, ⟨[⟨1, 1, []⟩, ⟨2, 5, [120]⟩], 3, [], [], []⟩, emptyDisk, 0⟩

/-- An unlink environment in which both backing calls succeed. -/
def env0 : UnlinkEnv := ⟨true, true, EIO⟩

/-- "x.jpg" -/
def xjpgName : List Nat := [120, 46, 106, 112, 103]

/-- "x.png" -/
def xpngName : List Nat := [120, 46, 112, 110, 103]

/-- A mount where the catalog maps (root, "x.png") to inode 2 and the
backing directory holds a real file "x.jpg" (and "x.png"). -/
def jpgSt : FsState :=
  ⟨srcPath, ⟨[⟨1, 1, []⟩, ⟨2, 1, xpngName⟩], 3, [], [], []⟩,
   { emptyDisk with
       stat := fun p =>
         if p = xjpgName then some ⟨5, false, 0o644⟩
         else if p = xpngName then some ⟨7, false, 0o644⟩
         else none,
       fileBytes := fun p =>
         if p = xjpgName then some [1, 2, 3, 4, 5]
         else if p = xpngName then some [6, 7, 8, 9, 10, 11, 12]
         else none },
   0⟩

/-- "vault/s": the relative path of the vault file of `vaultSt`. -/
def vaultRel : List Nat := [118, 97, 117, 108, 116, 47, 115]

/-- A mount with a catalog row chain root → "vault" (inode 2) → "s"
(inode 3) and a backing file of three bytes at "vault/s". -/
def vaultSt : FsState :=
  ⟨srcPath,
   ⟨[⟨1, 1, []⟩, ⟨2, 1, [118, 97, 117, 108, 116]⟩, ⟨3, 2, [115]⟩], 4, [], [], []⟩,
   { emptyDisk with
       stat := fun p => if p = vaultRel then some ⟨3, false, 0o644⟩ else none,
       fileBytes := fun p => if p = vaultRel then some [1, 2, 3] else none },
   0⟩

/-- A mount with one real file "a" (inode 2) holding one byte. -/
def unlinkSt : FsState :=
  ⟨srcPath, ⟨[⟨1, 1, []⟩, ⟨2, 1, [97]⟩], 3, [], [], []⟩,
   { emptyDisk with
       stat := fun p => if p = [97] then some ⟨1, false, 0o644⟩ else none,
       fileBytes := fun p => if p = [97] then some [1] else none },
   0⟩

/-- "invoice.txt" -/
def invName : List Nat := [105, 110, 118, 111, 105, 99, 101, 46, 116, 120, 116]

/-- A store whose inode 5 is the file "invoice.txt" under the root. -/
def c3Db : Db := ⟨[⟨1, 1, []⟩, ⟨5, 1, invName⟩], 6, [], [], []⟩

/-- Analyzer-side disk outcomes for a small readable text file whose
`Finance/` rename succeeds. -/
def c3Disk : AnalyzeDisk := ⟨some [104, 105], false, true, true⟩

/-! # Theorems -/

/-! ## Helper lemmas about the path walk -/

/-- The walk exits immediately at the root, keeping the parts collected. -/
theorem getPathWalk_root (c : Catalog) (f : Nat) (parts : List (List Nat)) :
    getPathWalk c f 1 parts = some parts := by
  unfold getPathWalk
  simp

/-- The walk exits when the fuel is exhausted, keeping the parts collected. -/
theorem getPathWalk_zero (c : Catalog) (i : Nat) (parts : List (List Nat)) :
    getPathWalk c 0 i parts = some parts := by
  unfold getPathWalk
  by_cases h : i = 1 <;> simp [h]

/-- One iteration of the walk on a resolvable non-root inode. -/
theorem getPathWalk_step (c : Catalog) (f i : Nat) (parts : List (List Nat))
    (pn : Nat × List Nat) (hne : i ≠ 1) (h : dbGetEntry c i = some pn) :
    getPathWalk c (f + 1) i parts = getPathWalk c f pn.1 (parts ++ [pn.2]) := by
  conv_lhs => unfold getPathWalk
  simp [hne, h]

/-- The walk aborts with `none` on a non-root inode with no catalog entry,
whatever positive fuel remains. -/
theorem getPathWalk_dead (c : Catalog) (f i : Nat) (parts : List (List Nat))
    (hf : f ≠ 0) (hne : i ≠ 1) (h : dbGetEntry c i = none) :
    getPathWalk c f i parts = none := by
  obtain ⟨g, rfl⟩ := Nat.exists_eq_succ_of_ne_zero hf
  conv_lhs => unfold getPathWalk
  simp [hne, h]

/-- `get_path` is `none` for a non-root inode with no catalog entry. -/
theorem get_path_entry_none (c : Catalog) (i : Nat) (hne : i ≠ 1)
    (h : dbGetEntry c i = none) : get_path c i = none := by
  unfold get_path
  rw [if_neg hne, getPathWalk_dead c 100 i [] (by norm_num) hne h]
  rfl

/-- Unfolding step for the parent chain. -/
theorem chain_step (c : Catalog) (i k : Nat) (pn : Nat × List Nat)
    (h : dbGetEntry c i = some pn) :
    chain c i (k + 1) = chain c pn.1 k := by
  conv_lhs => unfold chain
  rw [h]

/-- When every hop of the first `r` is walkable, the bounded walk performs
exactly `r` iterations and exits with `r` more name components appended —
it does not return `none`. -/
theorem getPathWalk_exhausts (c : Catalog) :
    ∀ (r i : Nat) (parts : List (List Nat)),
      (∀ k, k < r → chainOkB c i k = true) →
      ∃ names : List (List Nat), names.length = r ∧
        getPathWalk c r i parts = some (parts ++ names) := by
  intro r
  induction r with
  | zero =>
    intro i parts _
    exact ⟨[], rfl, by rw [getPathWalk_zero]; simp⟩
  | succ n ih =>
    intro i parts h
    have h0 := h 0 (Nat.succ_pos n)
    unfold chainOkB chain okNode at h0
    simp only [Bool.and_eq_true, decide_eq_true_eq, Option.isSome_iff_exists] at h0
    obtain ⟨hne, pn, hpn⟩ := h0
    have hrest : ∀ k, k < n → chainOkB c pn.1 k = true := by
      intro k hk
      have := h (k + 1) (by omega)
      rwa [chainOkB, chain_step c i k pn hpn] at this
    obtain ⟨names, hl, hw⟩ := ih pn.1 (parts ++ [pn.2]) hrest
    refine ⟨pn.2 :: names, by simp [hl], ?_⟩
    rw [getPathWalk_step c n i parts pn hne hpn, hw]
    simp

/-- C4 counterexample: in the catalog whose inode 2 is its own parent, the
parent-link chain of inode 2 never reaches the root, yet `get_path` does
not return "not found" — it returns a (truncated) path. -/
theorem c4_cycle_get_path_not_none : get_path cycCat 2 ≠ none := by
  decide

/-- C4 amended: for an inode that is not the root whose first 100 hops are
all resolvable and never reach the root (e.g. a cycle), `get_path` returns
`some` truncated partial path assembled from exactly 100 name components —
"not found" is reserved for a missing catalog entry mid-walk. -/
theorem c4_cycle_yields_truncated_path (c : Catalog) (i : Nat) (hne : i ≠ 1)
    (h : ∀ k, k < 100 → chainOkB c i k = true) :
    ∃ names : List (List Nat), names.length = 100 ∧
      get_path c i = some (joinPath names) := by
  obtain ⟨names, hl, hw⟩ := getPathWalk_exhausts c 100 i [] h
  refine ⟨names.reverse, by simp [hl], ?_⟩
  unfold get_path
  rw [if_neg hne, hw]
  simp

/-- C4 witness: the self-cycle catalog satisfies the walkability hypothesis,
so its resolution is a 100-component truncated path. -/
theorem c4_witness :
    ∃ names : List (List Nat), names.length = 100 ∧
      get_path cycCat 2 = some (joinPath names) :=
  c4_cycle_yields_truncated_path cycCat 2 (by decide) (by decide)

/-- C7 counterexample: on a fresh mount, reading the SEARCH inode
(`u64::MAX - 3`) replies with the error ENOENT — not with empty data. -/
theorem c7_read_search_errors_concretely :
    fsRead stdSt MAGIC_SEARCH 0 4096 = .error ENOENT := by
  decide

/-- C7 amended: whenever the catalog has no row for the SEARCH inode nor for
its bit-63-masked residue (true of any catalog whose ids stay in the real
range), every read of SEARCH replies ENOENT: `read` has no SEARCH branch,
so SEARCH — which carries bit 63 — is routed to the context-view branch,
whose masked directory inode fails to resolve. -/
theorem c7_read_search_is_enoent (st : FsState) (off size : Nat)
    (h1 : dbGetEntry st.db.inodes MAGIC_SEARCH = none)
    (h2 : dbGetEntry st.db.inodes (MAGIC_SEARCH &&& contextMask) = none) :
    fsRead st MAGIC_SEARCH off size = .error ENOENT := by
  have hp1 : get_path st.db.inodes MAGIC_SEARCH = none :=
    get_path_entry_none _ _ (by decide) h1
  have hp2 : get_path st.db.inodes (MAGIC_SEARCH &&& contextMask) = none :=
    get_path_entry_none _ _ (by decide) h2
  unfold fsRead
  rw [hp1]
  simp [hp2]
  intro hc
  exact absurd hc (by decide)

/-- C7 witness: the amended statement applied to the fresh mount. -/
theorem c7_witness : fsRead stdSt MAGIC_SEARCH 7 9 = .error ENOENT :=
  c7_read_search_is_enoent stdSt 7 9 (by decide) (by decide)

/-- C8: every successful unlink deletes the child's inode row, and either
(trash path) appends exactly one trash row whose backup path is readable on
the resulting disk, or (fallback path) leaves the trash table unchanged and
removes the backing file itself. -/
theorem c8_unlink_success_postcondition (st : FsState) (env : UnlinkEnv)
    (parent : Nat) (name : List Nat)
    (h : (fsUnlink st env parent name).2 = .ok) :
    (∃ c, dbGetInode st.db.inodes parent name = some c ∧
       (fsUnlink st env parent name).1.db.inodes =
         st.db.inodes.filter (fun r => r.id != c)) ∧
    ((∃ o b, (fsUnlink st env parent name).1.db.trash = st.db.trash ++ [(o, b)] ∧
        ((fsUnlink st env parent name).1.disk.fileBytes b).isSome = true) ∨
     ((fsUnlink st env parent name).1.db.trash = st.db.trash ∧
        ∃ c rel, dbGetInode st.db.inodes parent name = some c ∧
          get_path st.db.inodes c = some rel ∧
          (fsUnlink st env parent name).1.disk.fileBytes rel = none)) := by
  unfold fsUnlink at h ⊢
  cases hgi : dbGetInode st.db.inodes parent name with
  | none =>
    rw [hgi] at h
    simp at h
  | some c =>
    rw [hgi] at h
    dsimp only at h ⊢
    cases hgp : get_path st.db.inodes c with
    | none =>
      rw [hgp] at h
      unfold fsUnlinkFallback at h
      rw [hgp] at h
      simp at h
    | some rel =>
      rw [hgp] at h
      dsimp only at h ⊢
      by_cases hg : ((st.disk.fileBytes rel).isSome && env.renameOk) = true
      · rw [if_pos hg] at h ⊢
        simp only [Bool.and_eq_true] at hg
        refine ⟨⟨c, rfl, by simp [dbDeleteInode, dbAddTrash]⟩, .inl ?_⟩
        refine ⟨rel, unlinkBackupName st name,
          by simp [dbDeleteInode, dbAddTrash], ?_⟩
        simp [diskRename, hg.1]
      · rw [if_neg hg] at h ⊢
        unfold fsUnlinkFallback at h ⊢
        rw [hgp] at h ⊢
        dsimp only at h ⊢
        by_cases hs : (st.disk.fileBytes rel).isSome = true
        · rw [if_pos hs] at h ⊢
          by_cases hok : env.unlinkOk = true
          · rw [if_pos hok] at h ⊢
            refine ⟨⟨c, rfl, by simp [dbDeleteInode]⟩, .inr ?_⟩
            refine ⟨by simp [dbDeleteInode], c, rel, rfl, hgp, ?_⟩
            simp [diskRemove]
          · rw [if_neg hok] at h
            simp at h
        · rw [if_neg hs] at h
          simp at h

/-- C8 witness: the postcondition instantiated on a mount holding one real
file "a" whose trash move succeeds. -/
theorem c8_witness :
    (∃ c, dbGetInode unlinkSt.db.inodes 1 [97] = some c ∧
       (fsUnlink unlinkSt env0 1 [97]).1.db.inodes =
         unlinkSt.db.inodes.filter (fun r => r.id != c)) ∧
    ((∃ o b, (fsUnlink unlinkSt env0 1 [97]).1.db.trash =
          unlinkSt.db.trash ++ [(o, b)] ∧
        ((fsUnlink unlinkSt env0 1 [97]).1.disk.fileBytes b).isSome = true) ∨
     ((fsUnlink unlinkSt env0 1 [97]).1.db.trash = unlinkSt.db.trash ∧
        ∃ c rel, dbGetInode unlinkSt.db.inodes 1 [97] = some c ∧
          get_path unlinkSt.db.inodes c = some rel ∧
          (fsUnlink unlinkSt env0 1 [97]).1.disk.fileBytes rel = none)) :=
  c8_unlink_success_postcondition unlinkSt env0 1 [97] (by decide)

/-! ## Helper lemmas about the cipher -/

/-- The derived key byte is a byte. -/
theorem cipherKey_lt (i : Nat) : cipherKey i < 256 :=
  Nat.mod_lt _ (by norm_num)

/-- Decrypting inverts encrypting on each byte. -/
theorem decByte_encByte (i b : Nat) (hb : b < 256) :
    decByte i (encByte i b) = b := by
  unfold decByte encByte
  have hk := cipherKey_lt i
  rw [Nat.xor_assoc, Nat.xor_self, Nat.xor_zero]
  omega

/-- Decrypting inverts encrypting from any starting position. -/
theorem decryptFrom_encryptFrom :
    ∀ (l : List Nat) (i : Nat), (∀ b ∈ l, b < 256) →
      decryptFrom i (encryptFrom i l) = l := by
  intro l
  induction l with
  | nil => intro i _; rfl
  | cons a rest ih =>
    intro i h
    simp only [encryptFrom, decryptFrom]
    rw [decByte_encByte i a (h a (List.mem_cons_self a rest)),
      ih (i + 1) (fun b hb => h b (List.mem_cons_of_mem a hb))]

/-- Encryption preserves the byte count. -/
theorem length_encryptFrom :
    ∀ (l : List Nat) (i : Nat), (encryptFrom i l).length = l.length := by
  intro l
  induction l with
  | nil => intro i; rfl
  | cons a rest ih =>
    intro i
    simp only [encryptFrom, List.length_cons, ih]

/-- What a read of `size` bytes at offset `off` sees of a file whose bytes
from `off` on are `block ++ tail`, when `size = block.length` and the first
`off` bytes are intact. -/
theorem readBack_spliceAt (contents : List Nat) (off : Nat)
    (block : List Nat) (hoff : off ≤ contents.length) :
    ((spliceAt contents off block).drop off).take block.length = block := by
  unfold spliceAt
  rw [Nat.sub_eq_zero_of_le hoff, List.replicate_zero, List.append_nil,
    List.append_assoc, List.drop_left' (by simp [hoff]), List.take_left]

/-- C2: the cipher round-trip `decrypt (encrypt b) = b` holds for every
byte sequence, and consequently writing `b` through the mount to a path
containing the segment `/vault/` (which stores `encrypt b`) and reading the
same inode back at the same offset with size `b.length` returns exactly
`b`. -/
theorem c2_vault_write_read_roundtrip (st : FsState) (inode off : Nat)
    (data rel contents : List Nat)
    (hsi : inode ≠ MAGIC_SEARCH)
    (hpath : get_path st.db.inodes inode = some rel)
    (hfile : st.disk.fileBytes rel = some contents)
    (hoff : off ≤ contents.length)
    (hvault : containsSeq vaultSeg (fullPath st rel) = true)
    (hdata : ∀ b ∈ data, b < 256) :
    decrypt (encrypt data) = data ∧
    fsRead (fsWrite st inode off data).1 inode off data.length = .data data := by
  have hde : decrypt (encrypt data) = data := decryptFrom_encryptFrom data 0 hdata
  refine ⟨hde, ?_⟩
  have hlen : data.length = (encrypt data).length := (length_encryptFrom data 0).symm
  unfold fsWrite
  rw [if_neg hsi, hpath]
  try dsimp only
  rw [hfile]
  try dsimp only
  have hf1 : (diskWriteFile st.disk (writeBackupName st inode rel)
      contents).fileBytes rel = some contents := by
    unfold diskWriteFile
    dsimp only
    split <;> simp [hfile]
  rw [hf1]
  try dsimp only
  rw [if_pos hvault]
  try dsimp only
  unfold fsRead
  dsimp only [dbAddHistory]
  rw [hpath]
  try dsimp only
  have hf2 : (diskWriteFile (diskWriteFile st.disk (writeBackupName st inode rel)
        contents) rel (spliceAt contents off (encrypt data))).fileBytes rel =
      some (spliceAt contents off (encrypt data)) := by
    unfold diskWriteFile
    simp
  rw [hf2]
  dsimp only [fullPath]
  unfold fullPath at hvault
  rw [if_pos hvault]
  rw [hlen, readBack_spliceAt contents off (encrypt data) hoff, hde]

/-- C2 witness: two bytes written at offset 0 of the three-byte vault file
"vault/s" read back verbatim. -/
theorem c2_witness :
    decrypt (encrypt [104, 105]) = [104, 105] ∧
    fsRead (fsWrite vaultSt 3 0 [104, 105]).1 3 0 (List.length [104, 105]) =
      .data [104, 105] :=
  c2_vault_write_read_roundtrip vaultSt 3 0 [104, 105] vaultRel [1, 2, 3]
    (by decide) (by decide) (by decide) (by decide) (by decide)
    (by decide)

/-! ## Helper lemmas about the tag upsert -/

/-- `add_tag` never touches the `inodes` table. -/
theorem dbAddTag_inodes (db : Db) (i : Nat) (t : List Nat) :
    (dbAddTag db i t).inodes = db.inodes := by
  unfold dbAddTag
  split <;> rfl

/-- `add_tag` never touches the `file_history` table. -/
theorem dbAddTag_history (db : Db) (i : Nat) (t : List Nat) :
    (dbAddTag db i t).history = db.history := by
  unfold dbAddTag
  split <;> rfl

/-- `add_tag` never touches the `trash` table. -/
theorem dbAddTag_trash (db : Db) (i : Nat) (t : List Nat) :
    (dbAddTag db i t).trash = db.trash := by
  unfold dbAddTag
  split <;> rfl

/-- Upserting a list of tags never touches the `inodes` table. -/
theorem foldl_addTag_inodes (i : Nat) :
    ∀ (l : List (List Nat)) (db : Db),
      (l.foldl (fun acc t => dbAddTag acc i t) db).inodes = db.inodes := by
  intro l
  induction l with
  | nil => intro db; rfl
  | cons a r ih =>
    intro db
    simp only [List.foldl_cons]
    rw [ih, dbAddTag_inodes]

/-- Upserting a list of tags never touches the `file_history` table. -/
theorem foldl_addTag_history (i : Nat) :
    ∀ (l : List (List Nat)) (db : Db),
      (l.foldl (fun acc t => dbAddTag acc i t) db).history = db.history := by
  intro l
  induction l with
  | nil => intro db; rfl
  | cons a r ih =>
    intro db
    simp only [List.foldl_cons]
    rw [ih, dbAddTag_history]

/-- Upserting a list of tags never touches the `trash` table. -/
theorem foldl_addTag_trash (i : Nat) :
    ∀ (l : List (List Nat)) (db : Db),
      (l.foldl (fun acc t => dbAddTag acc i t) db).trash = db.trash := by
  intro l
  induction l with
  | nil => intro db; rfl
  | cons a r ih =>
    intro db
    simp only [List.foldl_cons]
    rw [ih, dbAddTag_trash]

/-- C3 counterexample: analyzing the readable text file "invoice.txt"
(inode 5) with a succeeding `Finance/` rename deletes that inode's row —
the analyzer does change the `inodes` table. -/
theorem c3_invoice_mutates_inodes :
    (process_analyze c3Db c3Disk 5 invName).inodes ≠ c3Db.inodes := by
  decide

/-- C3 amended: an Analyze job never touches `file_history` or `trash`,
and it leaves `inodes` unchanged except in exactly the live auto-organizer
case — a text file whose lowercased name contains "invoice" and whose
on-disk rename into `Finance/` succeeds — where it deletes the analyzed
inode's row. -/
theorem c3_analyzer_table_effects (db : Db) (d : AnalyzeDisk) (inode : Nat)
    (path : List Nat) :
    (process_analyze db d inode path).history = db.history ∧
    (process_analyze db d inode path).trash = db.trash ∧
    ((process_analyze db d inode path).inodes = db.inodes ∨
      (containsSeq invoicePat (toLowerBytes (lastComponent path)) = true ∧
       d.renameOk = true ∧
       (process_analyze db d inode path).inodes =
         db.inodes.filter (fun r => r.id != inode))) := by
  unfold process_analyze
  dsimp only
  split
  · split
    · exact ⟨dbAddTag_history db inode imageTag, dbAddTag_trash db inode imageTag,
        Or.inl (dbAddTag_inodes db inode imageTag)⟩
    · exact ⟨rfl, rfl, Or.inl rfl⟩
  · split
    · exact ⟨rfl, rfl, Or.inl rfl⟩
    · split
      · split
        · split
          · split
            · rename_i hinv hren
              refine ⟨?_, ?_, Or.inr ⟨hinv, hren, ?_⟩⟩
              · simp [dbDeleteInode, foldl_addTag_history]
              · simp [dbDeleteInode, foldl_addTag_trash]
              · simp [dbDeleteInode, foldl_addTag_inodes]
            · exact ⟨foldl_addTag_history inode _ db, foldl_addTag_trash inode _ db,
                Or.inl (foldl_addTag_inodes inode _ db)⟩
          · exact ⟨foldl_addTag_history inode _ db, foldl_addTag_trash inode _ db,
              Or.inl (foldl_addTag_inodes inode _ db)⟩
        · exact ⟨rfl, rfl, Or.inl rfl⟩
      · exact ⟨rfl, rfl, Or.inl rfl⟩

/-- C9 counterexample: unlinking "x" in a catalog where the row (2, 5, "x")
exists but its parent row 5 is missing drives `unlink` into the fallback's
`get_path(..).unwrap()` on `None` — the callback panics instead of replying. -/
theorem c9_unlink_can_panic :
    (fsUnlink brokenSt env0 5 [120]).2 = .panicked := by
  decide

/-- C9 amended: `unlink` panics precisely when the name resolves to a
catalog inode whose path walk fails (a missing ancestor row); in every
other situation — any state of the backing filesystem included — it
terminates with a success or errno reply. -/
theorem c9_unlink_panics_iff (st : FsState) (env : UnlinkEnv) (parent : Nat)
    (name : List Nat) :
    (fsUnlink st env parent name).2 = .panicked ↔
      ∃ c, dbGetInode st.db.inodes parent name = some c ∧
        get_path st.db.inodes c = none := by
  unfold fsUnlink fsUnlinkFallback
  cases hgi : dbGetInode st.db.inodes parent name with
  | none => simp [hgi]
  | some c =>
    cases hgp : get_path st.db.inodes c with
    | none => simp [hgi, hgp]
    | some rel =>
      simp only [hgi, hgp]
      constructor
      · intro h
        split at h
        · exact absurd h (by simp)
        · split at h
          · split at h <;> exact absurd h (by simp)
          · exact absurd h (by simp)
      · rintro ⟨c', hc', hnone⟩
        rw [Option.some_inj] at hc'
        subst hc'
        rw [hgp] at hnone
        exact absurd hnone (by simp)

/-- C1: evaluating getattr at the failing input `MAGIC_TAGS` (the `tags`
directory singleton, `u64::MAX - 1`).  Because every `MAX - N` singleton
has bit 63 set and getattr tests `CONTEXT_BIT` before the singleton ladder,
getattr returns the context-view regular-file attribute (mode 0o444,
size 1024, nlink 1) instead of the canned directory attribute (mode 0o555,
size 0, nlink 2) the claim requires — for every mounted state. -/
theorem c1_getattr_tags_returns_context_view (st : FsState) :
    fsGetattr st MAGIC_TAGS =
      .attr { ino := MAGIC_TAGS, size := 1024, blocks := 1,
              kind := .regularFile, perm := 0o444, nlink := 1 } := by
  unfold fsGetattr
  rw [if_pos (by decide)]

/-- C5: evaluating lookup at the failing input: the catalog maps
(root, "x.png") to inode 2 and a real backing file "x.jpg" exists (its
`stat` succeeds), yet `lookup(1, "x.jpg")` replies with the synthetic
converted-view inode `2 | CONVERT_BIT` — the real file is shadowed because
the `.png` probe runs before the backing `stat`. -/
theorem c5_jpg_lookup_shadows_real_file :
    jpgSt.disk.stat (childPath [] xjpgName) = some ⟨5, false, 0o644⟩ ∧
    (fsLookup jpgSt 1 xjpgName).1 =
      .entry { ino := 2 ||| CONVERT_BIT, size := 1024 * 1024, blocks := 1,
               kind := .regularFile, perm := 0o444, nlink := 1 } := by
  constructor
  · rfl
  · decide

/-- C6 counterexample: for the tag "a" (byte sum 97) the per-tag inode is
`MAGIC_TAGS - 1097`, which violates the claimed lower bound
`MAGIC_TAGS - 1000 ≤ i`. -/
theorem c6_tag_a_below_claimed_range :
    ¬ (MAGIC_TAGS - 1000 ≤ tagInode [97]) := by
  decide

/-- C6 amended: the per-tag inode is exactly
`MAGIC_TAGS - 1000 - (sum_of_bytes(tag) mod 1000)`, and it always lies in
`MAGIC_TAGS - 2000 < i ≤ MAGIC_TAGS - 1000` — the band the readdir range
test `MAGIC_TAGS - 2000 < i < MAGIC_TAGS` of the code accepts — not in the
claimed band `MAGIC_TAGS - 1000 ≤ i < MAGIC_TAGS`. -/
theorem c6_tag_inode_formula_and_range (name : List Nat) :
    tagInode name = MAGIC_TAGS - 1000 - byteSumU64 name % 1000 ∧
    MAGIC_TAGS - 2000 < tagInode name ∧
    tagInode name ≤ MAGIC_TAGS - 1000 ∧
    tagDirRange (tagInode name) = true := by
  have hm : byteSumU64 name % 1000 < 1000 := Nat.mod_lt _ (by norm_num)
  have ht : MAGIC_TAGS = 18446744073709551614 := by norm_num [MAGIC_TAGS, U64MAX]
  refine ⟨rfl, ?_, ?_, ?_⟩
  · unfold tagInode; omega
  · unfold tagInode; omega
  · unfold tagDirRange
    simp only [Bool.and_eq_true, decide_eq_true_eq]
    unfold tagInode
    omega

/-- C10: looking up any name under the `tags` directory singleton succeeds
unconditionally — whether or not such a tag exists in the catalog — and
returns the synthetic directory attribute (mode 0o555, nlink 2, size 0)
with the inode derived from the name's byte sum. -/
theorem c10_lookup_under_tags_never_enoent (st : FsState) (name : List Nat) :
    (fsLookup st MAGIC_TAGS name).1 =
      .entry { ino := tagInode name, size := 0, blocks := 0,
               kind := .directory, perm := 0o555, nlink := 2 } := by
  unfold fsLookup
  rw [if_neg (fun h => absurd h.1 (by decide)),
      if_neg (fun h => absurd h.1 (by decide)),
      if_neg (fun h => absurd h.1 (by decide)),
      if_neg (fun h => absurd h.1 (by decide)),
      if_neg (fun h => absurd h.1 (by decide)),
      if_neg (fun h => absurd h.1 (by decide)),
      if_neg (fun h => absurd h.1 (by decide)),
      if_neg (fun h => absurd h.1 (by decide)),
      if_pos rfl]

end Eidetic
